import Mathlib

/-!
Verification of the OrderApp core: the domain model (`OrderApp/models.py`)
and the custom ordering routine (`OrderApp/utils_sort.py`), embedded
shallowly in Lean 4. Python lists become `List`, numeric prices become `ℚ`,
timestamps become `ℕ`, fallible constructors and setters become
`Except String`-valued functions, the process-wide random id source is
modeled by passing the drawn entropy explicitly, and the Unicode character
classes the regex engine consults for `\w` and `\d` are passed explicitly
as a `CharClasses` value.
-/

/-- Embedding of `quicksort_orders` from `OrderApp/utils_sort.py`: pivot at
index `len // 2`, three-way partition by comparing `key` values with the
pivot's key (each group a filter of the input, so relative order is kept),
recursion on the strictly-less and strictly-greater groups with the same
`reverse` flag, concatenation `less ++ equal ++ greater`, and — when
`reverse` is set — an in-place reversal of the concatenated result at every
recursion level before it is returned. -/
def quicksort_orders {α β : Type} [LinearOrder β] (key : α → β) (reverse : Bool)
    (orders : List α) : List α :=
  if _h : orders.length ≤ 1 then orders
  else
    have hp : orders.length / 2 < orders.length := Nat.div_lt_self (by omega) (by omega)
    let pivot := orders.get ⟨orders.length / 2, hp⟩
    let pivot_key := key pivot
    let less := orders.filter fun o => decide (key o < pivot_key)
    let equal := orders.filter fun o => decide (key o = pivot_key)
    let greater := orders.filter fun o => decide (pivot_key < key o)
    let result := quicksort_orders key reverse less ++ equal ++ quicksort_orders key reverse greater
    if reverse then result.reverse else result
termination_by orders.length
decreasing_by
  · exact List.length_filter_lt_length_iff_exists.mpr
      ⟨orders.get ⟨orders.length / 2, hp⟩, List.get_mem _ _ _, by simp⟩
  · exact List.length_filter_lt_length_iff_exists.mpr
      ⟨orders.get ⟨orders.length / 2, hp⟩, List.get_mem _ _ _, by simp⟩

section QuicksortLemmas

variable {α β : Type} [LinearOrder β] (key : α → β)

/-- Unfolding equation for `quicksort_orders` on inputs of length at least 2. -/
lemma quicksort_orders_unfold (rev : Bool) (orders : List α)
    (h2 : 2 ≤ orders.length) (hp : orders.length / 2 < orders.length) :
    quicksort_orders key rev orders =
      (fun r => if rev then r.reverse else r)
        (quicksort_orders key rev
            (orders.filter fun o => decide (key o < key (orders.get ⟨orders.length / 2, hp⟩)))
          ++ orders.filter (fun o => decide (key o = key (orders.get ⟨orders.length / 2, hp⟩)))
          ++ quicksort_orders key rev
            (orders.filter fun o => decide (key (orders.get ⟨orders.length / 2, hp⟩) < key o))) := by
  conv_lhs => rw [quicksort_orders]
  rw [dif_neg (by omega)]

/-- The three filter groups taken together are a permutation of the input. -/
lemma partition3_perm (pk : β) (l : List α) :
    ((l.filter fun o => decide (key o < pk))
      ++ (l.filter fun o => decide (key o = pk))
      ++ (l.filter fun o => decide (pk < key o))).Perm l := by
  have h1 := List.filter_append_perm (fun o => decide (key o < pk)) l
  have h2 := List.filter_append_perm (fun o => decide (key o = pk))
    (l.filter fun o => !decide (key o < pk))
  rw [List.filter_filter, List.filter_filter] at h2
  have e1 : (l.filter fun a => decide (key a = pk) && !decide (key a < pk))
      = l.filter fun o => decide (key o = pk) := by
    refine List.filter_congr fun x _ => ?_
    by_cases hx : key x = pk <;> simp [hx]
  have e2 : (l.filter fun a => !decide (key a = pk) && !decide (key a < pk))
      = l.filter fun o => decide (pk < key o) := by
    refine List.filter_congr fun x _ => ?_
    rcases lt_trichotomy (key x) pk with h | h | h
    · simp [h, lt_asymm h]
    · simp [h]
    · simp [h, ne_of_gt h, lt_asymm h]
  rw [e1, e2] at h2
  rw [List.append_assoc]
  exact (h2.append_left _).trans h1

/-- Any list of length at most one is vacuously pairwise-related. -/
lemma pairwise_of_length_le_one {R : α → α → Prop} (l : List α) (h : l.length ≤ 1) :
    l.Pairwise R := by
  match l with
  | [] => exact List.Pairwise.nil
  | [a] => simp
  | a :: b :: t => simp at h

/-- The output of `quicksort_orders` is a permutation of its input
(length-bounded induction). -/
lemma quicksort_perm_aux (rev : Bool) :
    ∀ (n : ℕ) (l : List α), l.length ≤ n → (quicksort_orders key rev l).Perm l := by
  intro n
  induction n with
  | zero =>
    intro l hl
    rw [quicksort_orders, dif_pos (by omega)]
  | succ n ih =>
    intro l hl
    by_cases h1 : l.length ≤ 1
    · rw [quicksort_orders, dif_pos h1]
    · have h2 : 2 ≤ l.length := by omega
      have hp : l.length / 2 < l.length := Nat.div_lt_self (by omega) (by omega)
      rw [quicksort_orders_unfold key rev l h2 hp]
      set pk := key (l.get ⟨l.length / 2, hp⟩) with hpk
      have hless : (l.filter fun o => decide (key o < pk)).length < l.length :=
        List.length_filter_lt_length_iff_exists.mpr
          ⟨l.get ⟨l.length / 2, hp⟩, List.get_mem _ _ _, by simp [hpk]⟩
      have hgreater : (l.filter fun o => decide (pk < key o)).length < l.length :=
        List.length_filter_lt_length_iff_exists.mpr
          ⟨l.get ⟨l.length / 2, hp⟩, List.get_mem _ _ _, by simp [hpk]⟩
      have pL := ih (l.filter fun o => decide (key o < pk)) (by omega)
      have pG := ih (l.filter fun o => decide (pk < key o)) (by omega)
      have main : (quicksort_orders key rev (l.filter fun o => decide (key o < pk))
          ++ l.filter (fun o => decide (key o = pk))
          ++ quicksort_orders key rev (l.filter fun o => decide (pk < key o))).Perm l := by
        refine List.Perm.trans ?_ (partition3_perm key pk l)
        exact List.Perm.append (List.Perm.append pL (List.Perm.refl _)) pG
      cases rev with
      | false => simpa using main
      | true => simpa using (List.reverse_perm _).trans main

/-- The output of `quicksort_orders` is a permutation of its input. -/
lemma quicksort_perm (rev : Bool) (l : List α) : (quicksort_orders key rev l).Perm l :=
  quicksort_perm_aux key rev l.length l le_rfl

/-- Membership in the output of `quicksort_orders` coincides with membership
in the input. -/
lemma mem_quicksort_iff (rev : Bool) (l : List α) (a : α) :
    a ∈ quicksort_orders key rev l ↔ a ∈ l :=
  (quicksort_perm key rev l).mem_iff

/-- With `reverse = false` the keys of the output are pairwise non-decreasing
(length-bounded induction). -/
lemma quicksort_sorted_aux :
    ∀ (n : ℕ) (l : List α), l.length ≤ n →
      (quicksort_orders key false l).Pairwise fun a b => key a ≤ key b := by
  intro n
  induction n with
  | zero =>
    intro l hl
    rw [quicksort_orders, dif_pos (by omega)]
    exact pairwise_of_length_le_one l (by omega)
  | succ n ih =>
    intro l hl
    by_cases h1 : l.length ≤ 1
    · rw [quicksort_orders, dif_pos h1]
      exact pairwise_of_length_le_one l h1
    · have h2 : 2 ≤ l.length := by omega
      have hp : l.length / 2 < l.length := Nat.div_lt_self (by omega) (by omega)
      rw [quicksort_orders_unfold key false l h2 hp]
      set pk := key (l.get ⟨l.length / 2, hp⟩) with hpk
      have hless : (l.filter fun o => decide (key o < pk)).length < l.length :=
        List.length_filter_lt_length_iff_exists.mpr
          ⟨l.get ⟨l.length / 2, hp⟩, List.get_mem _ _ _, by simp [hpk]⟩
      have hgreater : (l.filter fun o => decide (pk < key o)).length < l.length :=
        List.length_filter_lt_length_iff_exists.mpr
          ⟨l.get ⟨l.length / 2, hp⟩, List.get_mem _ _ _, by simp [hpk]⟩
      have memL : ∀ a ∈ quicksort_orders key false (l.filter fun o => decide (key o < pk)),
          key a < pk := by
        intro a ha
        have := (mem_quicksort_iff key false _ a).mp ha
        simpa using (List.mem_filter.mp this).2
      have memG : ∀ a ∈ quicksort_orders key false (l.filter fun o => decide (pk < key o)),
          pk < key a := by
        intro a ha
        have := (mem_quicksort_iff key false _ a).mp ha
        simpa using (List.mem_filter.mp this).2
      have memE : ∀ a ∈ l.filter (fun o => decide (key o = pk)), key a = pk := by
        intro a ha
        simpa using (List.mem_filter.mp ha).2
      simp only [Bool.false_eq_true, if_false]
      rw [List.pairwise_append, List.pairwise_append]
      refine ⟨⟨ih _ (by omega), ?_, ?_⟩, ih _ (by omega), ?_⟩
      · exact List.pairwise_iff_forall_sublist.mpr fun hs =>
          le_of_eq ((memE _ (hs.subset (by simp))).trans (memE _ (hs.subset (by simp))).symm)
      · intro a ha b hb
        exact le_of_lt (lt_of_lt_of_le (memL a ha) (le_of_eq (memE b hb).symm))
      · intro a ha b hb
        rcases List.mem_append.mp ha with ha' | ha'
        · exact le_of_lt (lt_trans (memL a ha') (memG b hb))
        · exact le_of_lt (lt_of_le_of_lt (le_of_eq (memE a ha')) (memG b hb))

/-- With `reverse = false` the keys of the output are pairwise non-decreasing. -/
lemma quicksort_sorted (l : List α) :
    (quicksort_orders key false l).Pairwise fun a b => key a ≤ key b :=
  quicksort_sorted_aux key l.length l le_rfl

/-- Stability of the ascending sort: filtering the output to any one key
value gives exactly the input filtered to that key value, i.e. equal-key
elements keep their relative input order (length-bounded induction). -/
lemma quicksort_stable_aux :
    ∀ (n : ℕ) (l : List α) (k : β), l.length ≤ n →
      (quicksort_orders key false l).filter (fun a => decide (key a = k))
        = l.filter fun a => decide (key a = k) := by
  intro n
  induction n with
  | zero =>
    intro l k hl
    rw [quicksort_orders, dif_pos (by omega)]
  | succ n ih =>
    intro l k hl
    by_cases h1 : l.length ≤ 1
    · rw [quicksort_orders, dif_pos h1]
    · have h2 : 2 ≤ l.length := by omega
      have hp : l.length / 2 < l.length := Nat.div_lt_self (by omega) (by omega)
      rw [quicksort_orders_unfold key false l h2 hp]
      set pk := key (l.get ⟨l.length / 2, hp⟩) with hpk
      have hless : (l.filter fun o => decide (key o < pk)).length < l.length :=
        List.length_filter_lt_length_iff_exists.mpr
          ⟨l.get ⟨l.length / 2, hp⟩, List.get_mem _ _ _, by simp [hpk]⟩
      have hgreater : (l.filter fun o => decide (pk < key o)).length < l.length :=
        List.length_filter_lt_length_iff_exists.mpr
          ⟨l.get ⟨l.length / 2, hp⟩, List.get_mem _ _ _, by simp [hpk]⟩
      simp only [Bool.false_eq_true, if_false]
      rw [List.filter_append, List.filter_append,
        ih (l.filter fun o => decide (key o < pk)) k (by omega),
        ih (l.filter fun o => decide (pk < key o)) k (by omega),
        List.filter_filter, List.filter_filter, List.filter_filter]
      rcases lt_trichotomy k pk with h | h | h
      · have eL : (l.filter fun a => decide (key a = k) && decide (key a < pk))
            = l.filter fun a => decide (key a = k) := by
          refine List.filter_congr fun x _ => ?_
          by_cases hx : key x = k <;> simp [hx, h]
        have eE : (l.filter fun a => decide (key a = k) && decide (key a = pk)) = [] := by
          refine List.filter_eq_nil_iff.mpr fun a _ => ?_
          simp only [Bool.and_eq_true, decide_eq_true_eq, not_and]
          intro ha hb
          exact (ne_of_lt h) (by rw [← ha, hb])
        have eG : (l.filter fun a => decide (key a = k) && decide (pk < key a)) = [] := by
          refine List.filter_eq_nil_iff.mpr fun a _ => ?_
          simp only [Bool.and_eq_true, decide_eq_true_eq, not_and]
          intro ha hb
          exact lt_asymm h (by rwa [ha] at hb)
        rw [eL, eE, eG, List.append_nil, List.append_nil]
      · rw [← h]
        have eL : (l.filter fun a => decide (key a = k) && decide (key a < k)) = [] := by
          refine List.filter_eq_nil_iff.mpr fun a _ => ?_
          simp only [Bool.and_eq_true, decide_eq_true_eq, not_and]
          intro ha hb
          exact lt_irrefl k (ha ▸ hb)
        have eE : (l.filter fun a => decide (key a = k) && decide (key a = k))
            = l.filter fun a => decide (key a = k) := by
          refine List.filter_congr fun x _ => ?_
          by_cases hx : key x = k <;> simp [hx]
        have eG : (l.filter fun a => decide (key a = k) && decide (k < key a)) = [] := by
          refine List.filter_eq_nil_iff.mpr fun a _ => ?_
          simp only [Bool.and_eq_true, decide_eq_true_eq, not_and]
          intro ha hb
          exact lt_irrefl k (ha ▸ hb)
        rw [eL, eE, eG, List.nil_append, List.append_nil]
      · have eL : (l.filter fun a => decide (key a = k) && decide (key a < pk)) = [] := by
          refine List.filter_eq_nil_iff.mpr fun a _ => ?_
          simp only [Bool.and_eq_true, decide_eq_true_eq, not_and]
          intro ha hb
          exact lt_asymm h (by rwa [ha] at hb)
        have eE : (l.filter fun a => decide (key a = k) && decide (key a = pk)) = [] := by
          refine List.filter_eq_nil_iff.mpr fun a _ => ?_
          simp only [Bool.and_eq_true, decide_eq_true_eq, not_and]
          intro ha hb
          exact (ne_of_gt h) (by rw [← ha, hb])
        have eG : (l.filter fun a => decide (key a = k) && decide (pk < key a))
            = l.filter fun a => decide (key a = k) := by
          refine List.filter_congr fun x _ => ?_
          by_cases hx : key x = k <;> simp [hx, h]
        rw [eL, eE, eG, List.nil_append, List.nil_append]

/-- Stability of the ascending sort, stated for the full routine. -/
lemma quicksort_stable (l : List α) (k : β) :
    (quicksort_orders key false l).filter (fun a => decide (key a = k))
      = l.filter fun a => decide (key a = k) :=
  quicksort_stable_aux key l.length l k le_rfl

end QuicksortLemmas

/-- Model of the Python object heap restricted to list objects: cell `r`
holds the contents of the list object with reference `r`. Allocation appends
a fresh cell; `write` models in-place mutation of an existing list object. -/
structure ListStore (α : Type) where
  cells : List (List α)

namespace ListStore

def size (s : ListStore α) : Nat := s.cells.length

def read (s : ListStore α) (r : Nat) : List α := s.cells.getD r []

def write (s : ListStore α) (r : Nat) (v : List α) : ListStore α := ⟨s.cells.set r v⟩

def alloc (s : ListStore α) (v : List α) : ListStore α × Nat := (⟨s.cells ++ [v]⟩, s.cells.length)

lemma size_alloc (s : ListStore α) (v : List α) : (s.alloc v).1.size = s.size + 1 := by
  simp [alloc, size]

lemma snd_alloc (s : ListStore α) (v : List α) : (s.alloc v).2 = s.size := rfl

lemma read_alloc_old (s : ListStore α) (v : List α) (r : Nat) (h : r < s.size) :
    (s.alloc v).1.read r = s.read r := by
  simp only [alloc, read]
  rw [List.getD_eq_getElem?_getD, List.getD_eq_getElem?_getD, List.getElem?_append_left h]

lemma read_alloc_new (s : ListStore α) (v : List α) : (s.alloc v).1.read (s.alloc v).2 = v := by
  simp only [alloc, read]
  rw [List.getD_eq_getElem?_getD, List.getElem?_append_right (le_refl _)]
  simp

lemma size_write (s : ListStore α) (r : Nat) (v : List α) : (s.write r v).size = s.size := by
  simp [write, size]

lemma read_write_ne (s : ListStore α) (r r' : Nat) (v : List α) (h : r' ≠ r) :
    (s.write r v).read r' = s.read r' := by
  simp only [write, read]
  rw [List.getD_eq_getElem?_getD, List.getD_eq_getElem?_getD,
    List.getElem?_set_ne fun hh => h hh.symm]

lemma read_write_self (s : ListStore α) (r : Nat) (v : List α) (h : r < s.size) :
    (s.write r v).read r = v := by
  simp only [write, read]
  rw [List.getD_eq_getElem?_getD, List.getElem?_set_self h]
  simp

end ListStore

/-- Heap-allocating rendition of `quicksort_orders`, tracking which Python
list objects the routine creates and mutates. The base case allocates the
copy `orders[:]`; each recursion level allocates the list produced by the
concatenation `less + equal + greater`; and `result.reverse()` mutates, in
place, only that freshly allocated result object. List values consumed by
the recursion (the partition comprehensions) are passed directly. Returns
the updated heap together with the reference of the returned list object. -/
def quicksortRef {α β : Type} [LinearOrder β] (key : α → β) (reverse : Bool)
    (orders : List α) (s : ListStore α) : ListStore α × Nat :=
  if _h : orders.length ≤ 1 then s.alloc orders
  else
    have hp : orders.length / 2 < orders.length := Nat.div_lt_self (by omega) (by omega)
    let pivot := orders.get ⟨orders.length / 2, hp⟩
    let pivot_key := key pivot
    let less := orders.filter fun o => decide (key o < pivot_key)
    let equal := orders.filter fun o => decide (key o = pivot_key)
    let greater := orders.filter fun o => decide (pivot_key < key o)
    let p1 := quicksortRef key reverse less s
    let p2 := quicksortRef key reverse greater p1.1
    let p3 := p2.1.alloc (p2.1.read p1.2 ++ equal ++ p2.1.read p2.2)
    if reverse then (p3.1.write p3.2 (p3.1.read p3.2).reverse, p3.2) else p3
termination_by orders.length
decreasing_by
  · exact List.length_filter_lt_length_iff_exists.mpr
      ⟨orders.get ⟨orders.length / 2, hp⟩, List.get_mem _ _ _, by simp⟩
  · exact List.length_filter_lt_length_iff_exists.mpr
      ⟨orders.get ⟨orders.length / 2, hp⟩, List.get_mem _ _ _, by simp⟩

/-- Unfolding equation for `quicksortRef` on inputs of length at least 2. -/
lemma quicksortRef_unfold {α β : Type} [LinearOrder β] (key : α → β) (rev : Bool)
    (orders : List α) (s : ListStore α)
    (h2 : 2 ≤ orders.length) (hp : orders.length / 2 < orders.length) :
    quicksortRef key rev orders s =
      (fun p3 : ListStore α × Nat =>
          if rev then (p3.1.write p3.2 (p3.1.read p3.2).reverse, p3.2) else p3)
        ((quicksortRef key rev
            (orders.filter fun o => decide (key (orders.get ⟨orders.length / 2, hp⟩) < key o))
            (quicksortRef key rev
              (orders.filter fun o => decide (key o < key (orders.get ⟨orders.length / 2, hp⟩)))
              s).1).1.alloc
          ((quicksortRef key rev
              (orders.filter fun o => decide (key (orders.get ⟨orders.length / 2, hp⟩) < key o))
              (quicksortRef key rev
                (orders.filter fun o => decide (key o < key (orders.get ⟨orders.length / 2, hp⟩)))
                s).1).1.read
            (quicksortRef key rev
              (orders.filter fun o => decide (key o < key (orders.get ⟨orders.length / 2, hp⟩)))
              s).2
          ++ orders.filter (fun o => decide (key o = key (orders.get ⟨orders.length / 2, hp⟩)))
          ++ (quicksortRef key rev
              (orders.filter fun o => decide (key (orders.get ⟨orders.length / 2, hp⟩) < key o))
              (quicksortRef key rev
                (orders.filter fun o => decide (key o < key (orders.get ⟨orders.length / 2, hp⟩)))
                s).1).1.read
            (quicksortRef key rev
              (orders.filter fun o => decide (key (orders.get ⟨orders.length / 2, hp⟩) < key o))
              (quicksortRef key rev
                (orders.filter fun o => decide (key o < key (orders.get ⟨orders.length / 2, hp⟩)))
                s).1).2)) := by
  conv_lhs => rw [quicksortRef]
  rw [dif_neg (by omega)]

/-- Frame and correspondence properties of `quicksortRef`: the heap only
grows, the returned reference is freshly allocated, every pre-existing list
object is left untouched, and the returned object holds exactly the value
computed by the pure `quicksort_orders`. -/
lemma quicksortRef_spec {α β : Type} [LinearOrder β] (key : α → β) (rev : Bool) :
    ∀ (n : ℕ) (l : List α) (s : ListStore α), l.length ≤ n →
      s.size ≤ (quicksortRef key rev l s).1.size ∧
      s.size ≤ (quicksortRef key rev l s).2 ∧
      (quicksortRef key rev l s).2 < (quicksortRef key rev l s).1.size ∧
      (∀ r, r < s.size → (quicksortRef key rev l s).1.read r = s.read r) ∧
      (quicksortRef key rev l s).1.read (quicksortRef key rev l s).2
        = quicksort_orders key rev l := by
  intro n
  induction n with
  | zero =>
    intro l s hl
    rw [quicksortRef, dif_pos (by omega), quicksort_orders, dif_pos (by omega)]
    exact ⟨by rw [ListStore.size_alloc]; omega,
      by rw [ListStore.snd_alloc],
      by rw [ListStore.snd_alloc, ListStore.size_alloc]; omega,
      fun r hr => ListStore.read_alloc_old s l r hr,
      ListStore.read_alloc_new s l⟩
  | succ n ih =>
    intro l s hl
    by_cases h1 : l.length ≤ 1
    · rw [quicksortRef, dif_pos h1, quicksort_orders, dif_pos h1]
      exact ⟨by rw [ListStore.size_alloc]; omega,
        by rw [ListStore.snd_alloc],
        by rw [ListStore.snd_alloc, ListStore.size_alloc]; omega,
        fun r hr => ListStore.read_alloc_old s l r hr,
        ListStore.read_alloc_new s l⟩
    · have h2 : 2 ≤ l.length := by omega
      have hp : l.length / 2 < l.length := Nat.div_lt_self (by omega) (by omega)
      rw [quicksortRef_unfold key rev l s h2 hp]
      set pk := key (l.get ⟨l.length / 2, hp⟩) with hpk
      set less := l.filter fun o => decide (key o < pk) with hless_def
      set greater := l.filter fun o => decide (pk < key o) with hgr_def
      set equal := l.filter fun o => decide (key o = pk) with heq_def
      have hlessLen : less.length < l.length := by
        rw [hless_def]
        exact List.length_filter_lt_length_iff_exists.mpr
          ⟨l.get ⟨l.length / 2, hp⟩, List.get_mem _ _ _, by simp [hpk]⟩
      have hgrLen : greater.length < l.length := by
        rw [hgr_def]
        exact List.length_filter_lt_length_iff_exists.mpr
          ⟨l.get ⟨l.length / 2, hp⟩, List.get_mem _ _ _, by simp [hpk]⟩
      obtain ⟨hs1, hr1, hr1lt, hf1, hv1⟩ := ih less s (by omega)
      obtain ⟨hs2, hr2, hr2lt, hf2, hv2⟩ :=
        ih greater (quicksortRef key rev less s).1 (by omega)
      set s1 := (quicksortRef key rev less s).1 with hs1_def
      set r1 := (quicksortRef key rev less s).2 with hr1_def
      set s2 := (quicksortRef key rev greater s1).1 with hs2_def
      set r2 := (quicksortRef key rev greater s1).2 with hr2_def
      have hval1 : s2.read r1 = quicksort_orders key rev less := by
        rw [hf2 r1 hr1lt, hv1]
      rw [quicksort_orders_unfold key rev l h2 hp]
      cases rev with
      | false =>
        simp only [Bool.false_eq_true, if_false]
        refine ⟨?_, ?_, ?_, ?_, ?_⟩
        · rw [ListStore.size_alloc]; omega
        · rw [ListStore.snd_alloc]; omega
        · rw [ListStore.snd_alloc, ListStore.size_alloc]; omega
        · intro r hr
          rw [ListStore.read_alloc_old _ _ _ (by omega), hf2 r (by omega), hf1 r hr]
        · rw [ListStore.read_alloc_new, hval1, hv2]
      | true =>
        simp only [if_true]
        refine ⟨?_, ?_, ?_, ?_, ?_⟩
        · rw [ListStore.size_write, ListStore.size_alloc]; omega
        · rw [ListStore.snd_alloc]; omega
        · rw [ListStore.snd_alloc, ListStore.size_write, ListStore.size_alloc]; omega
        · intro r hr
          rw [ListStore.read_write_ne _ _ _ _ (by rw [ListStore.snd_alloc]; omega),
            ListStore.read_alloc_old _ _ _ (by omega), hf2 r (by omega), hf1 r hr]
        · rw [ListStore.read_write_self _ _ _
            (by rw [ListStore.snd_alloc, ListStore.size_alloc]; omega),
            ListStore.read_alloc_new, hval1, hv2]

/-- C1: for every list of orders and every key function into a totally
ordered key type, `quicksort_orders` with `reverse = false` returns a
sequence whose keys are non-decreasing, and elements with equal keys appear
in their original relative input order (ascending stability): filtering the
output to any single key value returns exactly the input filtered to that
key value. -/
theorem quicksort_ascending_sorted_and_stable {α β : Type} [LinearOrder β]
    (key : α → β) (l : List α) :
    ((quicksort_orders key false l).Pairwise fun a b => key a ≤ key b) ∧
    ∀ k : β, (quicksort_orders key false l).filter (fun a => decide (key a = k))
      = l.filter fun a => decide (key a = k) :=
  ⟨quicksort_sorted key l, fun k => quicksort_stable key l k⟩

/-- C2: with `reverse = true` the concatenated result is reversed at every
recursion level (the same flag is passed to the recursive calls), and as a
consequence, on the three-element input with keys `[2, 1, 2]` the
`reverse = true` result is not the element-wise reverse of the
`reverse = false` result. -/
theorem quicksort_reverse_per_level {α β : Type} [LinearOrder β] (key : α → β)
    (l : List α) (h2 : 2 ≤ l.length) (hp : l.length / 2 < l.length) :
    (quicksort_orders key true l =
      (quicksort_orders key true
          (l.filter fun o => decide (key o < key (l.get ⟨l.length / 2, hp⟩)))
        ++ l.filter (fun o => decide (key o = key (l.get ⟨l.length / 2, hp⟩)))
        ++ quicksort_orders key true
          (l.filter fun o => decide (key (l.get ⟨l.length / 2, hp⟩) < key o))).reverse)
    ∧ quicksort_orders (fun p : ℕ × ℕ => p.1) true [(2,0),(1,1),(2,2)]
        ≠ (quicksort_orders (fun p : ℕ × ℕ => p.1) false [(2,0),(1,1),(2,2)]).reverse := by
  constructor
  · simpa using quicksort_orders_unfold key true l h2 hp
  · have ht : quicksort_orders (fun p : ℕ × ℕ => p.1) true [(2,0),(1,1),(2,2)]
        = [(2,0),(2,2),(1,1)] := by
      simp [quicksort_orders, List.filter]
    have hf : quicksort_orders (fun p : ℕ × ℕ => p.1) false [(2,0),(1,1),(2,2)]
        = [(1,1),(2,0),(2,2)] := by
      simp [quicksort_orders, List.filter]
    rw [ht, hf]
    decide

/-- Witness for C2 at the concrete input with keys `[2, 1, 2]`. -/
theorem quicksort_reverse_per_level_witness :
    quicksort_orders (fun p : ℕ × ℕ => p.1) true [(2,0),(1,1),(2,2)]
      ≠ (quicksort_orders (fun p : ℕ × ℕ => p.1) false [(2,0),(1,1),(2,2)]).reverse :=
  (quicksort_reverse_per_level (fun p : ℕ × ℕ => p.1) [(2,0),(1,1),(2,2)]
    (by decide) (by decide)).2

/-- C10: for every input list, key function, and both values of the reverse
flag, the output of `quicksort_orders` is a permutation of the input — the
same elements with the same multiplicities. -/
theorem quicksort_permutation {α β : Type} [LinearOrder β] [DecidableEq α]
    (key : α → β) (rev : Bool) (l : List α) :
    (quicksort_orders key rev l).Perm l ∧
    ∀ a : α, (quicksort_orders key rev l).count a = l.count a :=
  ⟨quicksort_perm key rev l, fun a => (quicksort_perm key rev l).count_eq a⟩

/-- C9: `quicksort_orders` run over the heap model is non-mutating: the
input list object is left unchanged, the returned list is a distinct,
freshly allocated object (so mutating it does not affect the input), and
for inputs of length at most one the returned object holds an equal copy of
the input. -/
theorem quicksort_nonmutating {α β : Type} [LinearOrder β] (key : α → β) (rev : Bool)
    (s : ListStore α) (r : Nat) (h : r < s.size) :
    (quicksortRef key rev (s.read r) s).1.read r = s.read r ∧
    (quicksortRef key rev (s.read r) s).2 ≠ r ∧
    (∀ v, ((quicksortRef key rev (s.read r) s).1.write
        (quicksortRef key rev (s.read r) s).2 v).read r = s.read r) ∧
    ((s.read r).length ≤ 1 →
      (quicksortRef key rev (s.read r) s).1.read (quicksortRef key rev (s.read r) s).2
        = s.read r) := by
  obtain ⟨hs, hr, hlt, hf, hv⟩ := quicksortRef_spec key rev (s.read r).length (s.read r) s le_rfl
  refine ⟨hf r h, by omega, ?_, ?_⟩
  · intro v
    rw [ListStore.read_write_ne _ _ _ _ (by omega), hf r h]
  · intro hlen
    rw [hv, quicksort_orders, dif_pos hlen]

/-- Witness for C9 on a one-cell heap holding the singleton list `[5]`. -/
theorem quicksort_nonmutating_witness :
    (0 : ℕ) < (ListStore.mk [[(5:ℕ)]]).size ∧
    ((quicksortRef (fun x : ℕ => x) false ((ListStore.mk [[(5:ℕ)]]).read 0)
        (ListStore.mk [[(5:ℕ)]])).1.read 0 = (ListStore.mk [[(5:ℕ)]]).read 0 ∧
      (quicksortRef (fun x : ℕ => x) false ((ListStore.mk [[(5:ℕ)]]).read 0)
        (ListStore.mk [[(5:ℕ)]])).2 ≠ 0 ∧
      (∀ v, ((quicksortRef (fun x : ℕ => x) false ((ListStore.mk [[(5:ℕ)]]).read 0)
          (ListStore.mk [[(5:ℕ)]])).1.write
          (quicksortRef (fun x : ℕ => x) false ((ListStore.mk [[(5:ℕ)]]).read 0)
            (ListStore.mk [[(5:ℕ)]])).2 v).read 0 = (ListStore.mk [[(5:ℕ)]]).read 0) ∧
      (((ListStore.mk [[(5:ℕ)]]).read 0).length ≤ 1 →
        (quicksortRef (fun x : ℕ => x) false ((ListStore.mk [[(5:ℕ)]]).read 0)
          (ListStore.mk [[(5:ℕ)]])).1.read
          (quicksortRef (fun x : ℕ => x) false ((ListStore.mk [[(5:ℕ)]]).read 0)
            (ListStore.mk [[(5:ℕ)]])).2 = (ListStore.mk [[(5:ℕ)]]).read 0)) :=
  ⟨by decide, quicksort_nonmutating (fun x : ℕ => x) false (ListStore.mk [[(5:ℕ)]]) 0 (by decide)⟩

/-- Embedding of `_generate_id` (`uuid.uuid4().hex`): renders a 128-bit
random draw as a 32-character lowercase hexadecimal string. The process-wide
random source is modeled by passing the drawn value explicitly. -/
def _generate_id (entropy : ℕ) : String :=
  String.mk ((List.range 32).map fun i =>
    if entropy / 16 ^ i % 16 < 10 then Char.ofNat (48 + entropy / 16 ^ i % 16)
    else Char.ofNat (87 + entropy / 16 ^ i % 16))

lemma _generate_id_ne_empty (entropy : ℕ) : _generate_id entropy ≠ "" := by
  intro h
  have hlen : (_generate_id entropy).data.length = 0 := by rw [h]; rfl
  simp [_generate_id] at hlen

/-- The character classifications the `re` engine looks up in the Unicode
database when matching `\w` and `\d` against a `str`: the source patterns
are compiled without `re.ASCII`, so `\w` is the Unicode word-character
class (Unicode alphanumerics plus the underscore) and `\d` the Unicode
decimal-digit class (category Nd). Those tables live outside the program,
so — exactly like the entropy drawn by `_generate_id` — they are passed to
the embedding explicitly, and every theorem about the validators holds for
the real tables as an instance. Python's actual classes put neither `@`,
`.`, `-` nor `'\n'` in `\w` and do not put `+` in `\d`; those are the
facts used when reading the regexes structurally below. -/
structure CharClasses where
  isWordChar : Char → Bool
  isDigitChar : Char → Bool

/-- The ASCII fragment of the classifications: restricted to strings of
ASCII characters, Unicode `\w` is exactly alphanumeric-or-underscore and
Unicode `\d` exactly `0`–`9`, so concrete evaluations on ASCII strings
agree with the full tables. -/
def asciiClasses : CharClasses :=
  { isWordChar := fun c => c.isAlphanum || c == '_'
    isDigitChar := Char.isDigit }

/-- A character of the class `[\w.-]` used by both parts of `EMAIL_RE`. -/
def isLocalChar (cls : CharClasses) (c : Char) : Bool :=
  cls.isWordChar c || c == '.' || c == '-'

/-- Core of `EMAIL_RE` = `^[\w.-]+@[\w.-]+\.\w+$` against a whole string:
the part before the first `@` must be a non-empty run of `[\w.-]`; the part
after it must split at its last dot into a non-empty run of `[\w.-]` and a
non-empty run of `\w`. For classifications that keep `@` out of `\w` and
the dot out of `\w` — true of Python's — the class `[\w.-]` cannot contain
`@` and `\w` cannot contain a dot, so the first `@` and the last dot are
the only possible split points of any match. -/
def emailCore (cls : CharClasses) (s : List Char) : Bool :=
  match s.dropWhile (fun c => c != '@') with
  | '@' :: dom =>
    let localPart := s.takeWhile fun c => c != '@'
    match dom.reverse.dropWhile (fun c => c != '.') with
    | '.' :: dRev =>
      let tldRev := dom.reverse.takeWhile fun c => c != '.'
      !localPart.isEmpty && localPart.all (isLocalChar cls) &&
        !dRev.isEmpty && dRev.all (isLocalChar cls) &&
        !tldRev.isEmpty && tldRev.all cls.isWordChar
    | _ => false
  | _ => false

/-- Core of `PHONE_RE` = `^\+?\d{7,15}$` against a whole string: an optional
leading `+` followed by 7 to 15 digits (for classifications keeping `+` out
of `\d` — true of Python's — a leading `+` must be consumed by `\+?`). -/
def phoneCore (cls : CharClasses) (s : List Char) : Bool :=
  let digits := match s with
    | '+' :: rest => rest
    | _ => s
  decide (7 ≤ digits.length) && decide (digits.length ≤ 15) && digits.all cls.isDigitChar

/-- Python `re.match` with a `^...$` pattern and no MULTILINE flag: `$`
matches at the end of the string or just before one trailing newline, so
the pattern also accepts a match followed by a single final `'\n'`. -/
def anchoredMatch (core : List Char → Bool) (value : String) : Bool :=
  core value.data || (decide (value.data.getLast? = some '\n') && core value.data.dropLast)

/-- Embedding of `EMAIL_RE.match(value)` viewed as a Boolean test. -/
def EMAIL_RE_match (cls : CharClasses) (value : String) : Bool :=
  anchoredMatch (emailCore cls) value

/-- Embedding of `PHONE_RE.match(value)` viewed as a Boolean test. -/
def PHONE_RE_match (cls : CharClasses) (value : String) : Bool :=
  anchoredMatch (phoneCore cls) value

/-- The empty string is rejected by `EMAIL_RE` under every character
classification: it contains no `@` at all. -/
lemma EMAIL_RE_match_empty (cls : CharClasses) : EMAIL_RE_match cls "" = false := rfl

/-- Embedding of `Person` (`models.py`): name plus optional validated
contact fields, stored in the underscore-named attributes. -/
structure Person where
  _name : String
  _email : Option String
  _phone : Option String
deriving DecidableEq

/-- Embedding of the `Person.email` property setter: validate, raising
`ValidationError` (the `Except.error` branch, carrying the message with the
offending value) on a non-match, otherwise store. -/
def Person.set_email (cls : CharClasses) (p : Person) (value : String) :
    Except String Person :=
  if !EMAIL_RE_match cls value then Except.error ("Invalid email: " ++ value)
  else Except.ok { p with _email := some value }

/-- Embedding of the `Person.phone` property setter. -/
def Person.set_phone (cls : CharClasses) (p : Person) (value : String) :
    Except String Person :=
  if !PHONE_RE_match cls value then Except.error ("Invalid phone number: " ++ value)
  else Except.ok { p with _phone := some value }

/-- Embedding of `Person.__init__`: `_email`/`_phone` start as `None`; then
`if email: self.email = email` — Python truthiness, so both `None` and the
empty string skip the validating setter — and likewise for `phone`. -/
def Person.init (cls : CharClasses) (name : String) (email phone : Option String) :
    Except String Person := do
  let p : Person := { _name := name, _email := none, _phone := none }
  let p ← match email with
    | some e => if e.isEmpty then pure p else Person.set_email cls p e
    | none => pure p
  let p ← match phone with
    | some ph => if ph.isEmpty then pure p else Person.set_phone cls p ph
    | none => pure p
  pure p

/-- Embedding of the `Product` dataclass after `__post_init__`: `sku` is
always a string by then (the generated one if the argument was falsy). -/
structure Product where
  name : String
  price : ℚ
  sku : String
deriving DecidableEq

/-- Embedding of `Product(name, price, sku)` including `__post_init__`:
negative price raises `ValidationError`; a falsy `sku` (absent or empty) is
replaced by `_generate_id()`. Prices are modeled as rationals. -/
def Product.init (entropy : ℕ) (name : String) (price : ℚ) (sku : Option String) :
    Except String Product :=
  if price < 0 then Except.error "Price cannot be negative"
  else Except.ok
    { name := name, price := price,
      sku := (match sku with
        | some s => if s.isEmpty then _generate_id entropy else s
        | none => _generate_id entropy) }

/-- Embedding of the `OrderItem` dataclass: a product reference plus an
integer quantity. -/
structure OrderItem where
  product : Product
  quantity : ℤ
deriving DecidableEq

/-- Embedding of `OrderItem(product, quantity)` including `__post_init__`:
a non-positive quantity raises `ValidationError`. -/
def OrderItem.init (product : Product) (quantity : ℤ) : Except String OrderItem :=
  if quantity ≤ 0 then Except.error "Quantity must be > 0"
  else Except.ok { product := product, quantity := quantity }

/-- Embedding of `OrderItem.cost`: recomputed from the product each call. -/
def OrderItem.cost (i : OrderItem) : ℚ := i.product.price * (i.quantity : ℚ)

/-- Embedding of `Order`: `self.customer = customer` stores a reference to
the owning customer, modeled here by its identifier; `created_at` is a
timestamp modeled as a natural number. -/
structure Order where
  order_id : String
  customer_id : String
  _items : List OrderItem
  created_at : ℕ
deriving DecidableEq

/-- Embedding of `Order.total_cost`: the sum of the item costs. -/
def Order.total_cost (o : Order) : ℚ := (o._items.map OrderItem.cost).sum

/-- Embedding of `Order.items`: `list(self._items)`, a defensive copy. -/
def Order.items (o : Order) : List OrderItem := o._items

/-- Embedding of `Customer`, a `Person` with identifier, city and the
internal `_orders` list. -/
structure Customer extends Person where
  city : Option String
  customer_id : String
  _orders : List Order
deriving DecidableEq

/-- Embedding of `Customer.__init__`: contact fields go through
`Person.__init__` (and so through the validating setters); a falsy
`customer_id` is replaced by `_generate_id()`; `_orders` starts empty. -/
def Customer.init (cls : CharClasses) (entropy : ℕ) (name : String)
    (email phone city customer_id : Option String) : Except String Customer := do
  let p ← Person.init cls name email phone
  pure
    { toPerson := p, city := city,
      customer_id := (match customer_id with
        | some cid => if cid.isEmpty then _generate_id entropy else cid
        | none => _generate_id entropy),
      _orders := [] }

/-- Embedding of `Customer.add_order`: append to the internal list. -/
def Customer.add_order (c : Customer) (o : Order) : Customer :=
  { c with _orders := c._orders ++ [o] }

/-- Embedding of `Customer.orders`: `list(self._orders)`, a copy. -/
def Customer.orders (c : Customer) : List Order := c._orders

/-- Embedding of `Customer.total_spent`. -/
def Customer.total_spent (c : Customer) : ℚ := (c._orders.map Order.total_cost).sum

/-- Embedding of `Order.__init__`. The call `customer.add_order(self)` is
wrapped in `try/except Exception: pass` in the source; to model "any
exception raised during registration", the registration step is taken as a
parameter: `Except.error` models the call raising, in which case the
exception is swallowed and the pre-call customer state is kept, while the
fully constructed order is returned either way. A falsy `order_id` is
replaced by `_generate_id()`; `items[:] if items else []` copies a truthy
items argument and otherwise installs a fresh empty list; `created_at or
datetime.utcnow()` keeps a supplied timestamp (`datetime` objects are never
falsy) and otherwise uses the current time, passed in as `now`. -/
def Order.init (entropy : ℕ) (now : ℕ) (customer : Customer)
    (items : Option (List OrderItem)) (created_at : Option ℕ) (order_id : Option String)
    (add_order_call : Customer → Order → Except String Customer) : Order × Customer :=
  let o : Order := {
    order_id := (match order_id with
      | some oid => if oid.isEmpty then _generate_id entropy else oid
      | none => _generate_id entropy),
    customer_id := customer.customer_id,
    _items := (match items with
      | some its => if its.isEmpty then [] else its
      | none => []),
    created_at := (match created_at with
      | some t => t
      | none => now) }
  match add_order_call customer o with
  | Except.ok c2 => (o, c2)
  | Except.error _ => (o, customer)

/-- C3: for every character classification (in particular the Unicode
tables Python uses), assigning a string that fails the email (resp. phone)
pattern via the setter raises a validation failure carrying the value and
produces no new state (the previous stored value stays as it was);
assigning a matching string succeeds and stores exactly the new value,
leaving every other field unchanged. -/
theorem person_setters_validate (cls : CharClasses) (p : Person) (value : String) :
    (EMAIL_RE_match cls value = false →
      Person.set_email cls p value = Except.error ("Invalid email: " ++ value)) ∧
    (EMAIL_RE_match cls value = true →
      Person.set_email cls p value = Except.ok { p with _email := some value }) ∧
    (∀ q, Person.set_email cls p value = Except.ok q →
      q._name = p._name ∧ q._phone = p._phone ∧ q._email = some value) ∧
    (PHONE_RE_match cls value = false →
      Person.set_phone cls p value = Except.error ("Invalid phone number: " ++ value)) ∧
    (PHONE_RE_match cls value = true →
      Person.set_phone cls p value = Except.ok { p with _phone := some value }) ∧
    (∀ q, Person.set_phone cls p value = Except.ok q →
      q._name = p._name ∧ q._email = p._email ∧ q._phone = some value) := by
  refine ⟨?_, ?_, ?_, ?_, ?_, ?_⟩
  · intro h; simp [Person.set_email, h]
  · intro h; simp [Person.set_email, h]
  · intro q hq
    rw [Person.set_email] at hq
    by_cases hm : EMAIL_RE_match cls value
    · simp [hm] at hq
      simp [← hq]
    · simp [hm] at hq
  · intro h; simp [Person.set_phone, h]
  · intro h; simp [Person.set_phone, h]
  · intro q hq
    rw [Person.set_phone] at hq
    by_cases hm : PHONE_RE_match cls value
    · simp [hm] at hq
      simp [← hq]
    · simp [hm] at hq

/-- Witness for C3: a rejected and an accepted value for each setter,
evaluated at the ASCII fragment of the classifications (on these ASCII
strings it coincides with the full Unicode tables). -/
theorem person_setters_validate_witness :
    Person.set_email asciiClasses ⟨"Ivan", none, none⟩ "not-an-email"
        = Except.error "Invalid email: not-an-email" ∧
    Person.set_email asciiClasses ⟨"Ivan", none, none⟩ "ivan@example.com"
        = Except.ok ⟨"Ivan", some "ivan@example.com", none⟩ ∧
    Person.set_phone asciiClasses ⟨"Ivan", none, none⟩ "abc"
        = Except.error "Invalid phone number: abc" ∧
    Person.set_phone asciiClasses ⟨"Ivan", none, none⟩ "+1234567890"
        = Except.ok ⟨"Ivan", none, some "+1234567890"⟩ :=
  ⟨(person_setters_validate asciiClasses ⟨"Ivan", none, none⟩ "not-an-email").1 (by decide),
    (person_setters_validate asciiClasses ⟨"Ivan", none, none⟩ "ivan@example.com").2.1 (by decide),
    (person_setters_validate asciiClasses ⟨"Ivan", none, none⟩ "abc").2.2.2.1 (by decide),
    (person_setters_validate asciiClasses ⟨"Ivan", none, none⟩ "+1234567890").2.2.2.2.1 (by decide)⟩

/-- The order built by `Order.init` does not depend on the registration
call: it is the literal record assembled before the `try`. -/
lemma Order.init_fst (entropy now : ℕ) (customer : Customer)
    (items : Option (List OrderItem)) (created_at : Option ℕ) (order_id : Option String)
    (call : Customer → Order → Except String Customer) :
    (Order.init entropy now customer items created_at order_id call).1 =
      { order_id := (match order_id with
          | some oid => if oid.isEmpty then _generate_id entropy else oid
          | none => _generate_id entropy),
        customer_id := customer.customer_id,
        _items := (match items with
          | some its => if its.isEmpty then [] else its
          | none => []),
        created_at := (match created_at with
          | some t => t
          | none => now) } := by
  simp only [Order.init.eq_def]
  split <;> rfl

/-- C4: `Order.__init__` never fails: the constructed order does not depend
on the outcome of the `customer.add_order(self)` registration call, its
fields are all set, and when the registration call raises, the exception is
swallowed and the pre-call customer state is kept. -/
theorem order_init_never_fails (entropy now : ℕ) (customer : Customer)
    (items : Option (List OrderItem)) (created_at : Option ℕ) (order_id : Option String)
    (call1 call2 : Customer → Order → Except String Customer) :
    (Order.init entropy now customer items created_at order_id call1).1
      = (Order.init entropy now customer items created_at order_id call2).1 ∧
    (Order.init entropy now customer items created_at order_id call1).1.customer_id
      = customer.customer_id ∧
    (order_id = none →
      (Order.init entropy now customer items created_at order_id call1).1.order_id
        = _generate_id entropy) ∧
    (items = none →
      (Order.init entropy now customer items created_at order_id call1).1._items = []) ∧
    (created_at = none →
      (Order.init entropy now customer items created_at order_id call1).1.created_at = now) ∧
    (∀ t, created_at = some t →
      (Order.init entropy now customer items created_at order_id call1).1.created_at = t) ∧
    (∀ msg, call1 customer (Order.init entropy now customer items created_at order_id call1).1
        = Except.error msg →
      (Order.init entropy now customer items created_at order_id call1).2 = customer) := by
  refine ⟨?_, ?_, ?_, ?_, ?_, ?_, ?_⟩
  · rw [Order.init_fst, Order.init_fst]
  · rw [Order.init_fst]
  · intro h; subst h; rw [Order.init_fst]
  · intro h; subst h; rw [Order.init_fst]
  · intro h; subst h; rw [Order.init_fst]
  · intro t h; subst h; rw [Order.init_fst]
  · intro msg hmsg
    rw [Order.init_fst] at hmsg
    simp only [Order.init.eq_def]
    rw [hmsg]

/-- Witness for C4: a raising and a succeeding registration call produce the
same fully constructed order, and the raising one keeps the customer. -/
theorem order_init_never_fails_witness :
    (Order.init 0 7 ⟨⟨"Ann", none, none⟩, none, "c1", []⟩ none none none
        (fun _ _ => Except.error "boom")).1
      = (Order.init 0 7 ⟨⟨"Ann", none, none⟩, none, "c1", []⟩ none none none
        (fun cu ord => Except.ok (cu.add_order ord))).1 ∧
    (Order.init 0 7 ⟨⟨"Ann", none, none⟩, none, "c1", []⟩ none none none
        (fun _ _ => Except.error "boom")).1.order_id = _generate_id 0 ∧
    (Order.init 0 7 ⟨⟨"Ann", none, none⟩, none, "c1", []⟩ none none none
        (fun _ _ => Except.error "boom")).2 = ⟨⟨"Ann", none, none⟩, none, "c1", []⟩ :=
  ⟨(order_init_never_fails 0 7 ⟨⟨"Ann", none, none⟩, none, "c1", []⟩ none none none
      (fun _ _ => Except.error "boom") (fun cu ord => Except.ok (cu.add_order ord))).1,
    (order_init_never_fails 0 7 ⟨⟨"Ann", none, none⟩, none, "c1", []⟩ none none none
      (fun _ _ => Except.error "boom") (fun _ _ => Except.error "boom")).2.2.1 rfl,
    (order_init_never_fails 0 7 ⟨⟨"Ann", none, none⟩, none, "c1", []⟩ none none none
      (fun _ _ => Except.error "boom") (fun _ _ => Except.error "boom")).2.2.2.2.2.2
      "boom" rfl⟩

/-- C5: constructing an order against a customer with an empty order list,
with the registration step succeeding (`add_order` appending as in the
source), leaves the customer's order list of length 1, containing exactly
the constructed order. -/
theorem order_registers_with_customer (entropy now : ℕ) (c : Customer)
    (items : Option (List OrderItem)) (created_at : Option ℕ) (order_id : Option String)
    (h : c._orders = []) :
    (Order.init entropy now c items created_at order_id
        (fun cu ord => Except.ok (cu.add_order ord))).2.orders.length = 1 ∧
    (Order.init entropy now c items created_at order_id
        (fun cu ord => Except.ok (cu.add_order ord))).2.orders
      = [(Order.init entropy now c items created_at order_id
          (fun cu ord => Except.ok (cu.add_order ord))).1] := by
  rw [Order.init.eq_def]
  simp [Customer.add_order, Customer.orders, h]

/-- Witness for C5 on a concrete customer with no orders. -/
theorem order_registers_with_customer_witness :
    Customer._orders ⟨⟨"Ann", none, none⟩, none, "c1", []⟩ = [] ∧
    (Order.init 0 7 ⟨⟨"Ann", none, none⟩, none, "c1", []⟩ none none none
        (fun cu ord => Except.ok (cu.add_order ord))).2.orders
      = [(Order.init 0 7 ⟨⟨"Ann", none, none⟩, none, "c1", []⟩ none none none
          (fun cu ord => Except.ok (cu.add_order ord))).1] :=
  ⟨rfl, (order_registers_with_customer 0 7 ⟨⟨"Ann", none, none⟩, none, "c1", []⟩
      none none none rfl).2⟩

/-- Counterexample to C6 as stated: the empty string is a supplied email
argument that does not match the pattern, yet — because `Person.__init__`
guards the setter with Python truthiness (`if email:`) — the validator is
never invoked and construction succeeds, storing no email at all. The
rejection of the empty string is classification-independent
(`EMAIL_RE_match_empty`), so instantiating the ASCII fragment here is
equivalent to the full Unicode tables. -/
theorem customer_init_empty_email_counterexample :
    EMAIL_RE_match asciiClasses "" = false ∧
    Customer.init asciiClasses 0 "Ivan" (some "") none none none
      = Except.ok ⟨⟨"Ivan", none, none⟩, none, _generate_id 0, []⟩ :=
  ⟨by decide, rfl⟩

/-- C6 (amended): for every character classification (in particular the
Unicode tables Python uses) and every Customer construction in which a
non-empty email and/or phone argument is supplied, the value passes through the same
validators as explicit field assignment and a validation failure aborts
construction entirely (no Customer is produced); empty-string arguments are
treated as absent and skip validation. -/
theorem customer_init_validates (cls : CharClasses) (entropy : ℕ) (name : String)
    (email phone city customer_id : Option String) :
    (∀ e, email = some e → e.isEmpty = false → EMAIL_RE_match cls e = false →
      Customer.init cls entropy name email phone city customer_id
        = Except.error ("Invalid email: " ++ e)) ∧
    (∀ ph, phone = some ph → ph.isEmpty = false → PHONE_RE_match cls ph = false →
      ∀ c, Customer.init cls entropy name email phone city customer_id ≠ Except.ok c) ∧
    (∀ c, Customer.init cls entropy name email phone city customer_id = Except.ok c →
      (∀ e, email = some e → e.isEmpty = false →
        EMAIL_RE_match cls e = true ∧ c._email = some e) ∧
      (∀ ph, phone = some ph → ph.isEmpty = false →
        PHONE_RE_match cls ph = true ∧ c._phone = some ph)) := by
  refine ⟨?_, ?_, ?_⟩
  · intro e he hne hm
    subst he
    simp [Customer.init, Person.init, Person.set_email, hne, hm, Bind.bind, Except.bind]
  · intro ph hp hne hm c hc
    subst hp
    rcases email with _ | e
    · simp [Customer.init, Person.init, Person.set_phone, hne, hm, Bind.bind, Except.bind,
        Pure.pure, Except.pure] at hc
    · rcases hee : e.isEmpty with _ | _
      · rcases hme : EMAIL_RE_match cls e with _ | _
        · simp [Customer.init, Person.init, Person.set_email, Person.set_phone, hne, hm,
            hee, hme, Bind.bind, Except.bind, Pure.pure, Except.pure] at hc
        · simp [Customer.init, Person.init, Person.set_email, Person.set_phone, hne, hm,
            hee, hme, Bind.bind, Except.bind, Pure.pure, Except.pure] at hc
      · simp [Customer.init, Person.init, Person.set_email, Person.set_phone, hne, hm,
          hee, Bind.bind, Except.bind, Pure.pure, Except.pure] at hc
  · intro c hc
    constructor
    · intro e he hne
      subst he
      rcases hme : EMAIL_RE_match cls e with _ | _
      · exfalso
        simp [Customer.init, Person.init, Person.set_email, hne, hme, Bind.bind,
          Except.bind, Pure.pure, Except.pure] at hc
      · refine ⟨rfl, ?_⟩
        rcases phone with _ | ph
        · simp [Customer.init, Person.init, Person.set_email, hne, hme, Bind.bind,
            Except.bind, Pure.pure, Except.pure] at hc
          rw [← hc]
        · rcases hpe : ph.isEmpty with _ | _
          · rcases hmp : PHONE_RE_match cls ph with _ | _
            · exfalso
              simp [Customer.init, Person.init, Person.set_email, Person.set_phone, hne,
                hme, hpe, hmp, Bind.bind, Except.bind, Pure.pure, Except.pure] at hc
            · simp [Customer.init, Person.init, Person.set_email, Person.set_phone, hne,
                hme, hpe, hmp, Bind.bind, Except.bind, Pure.pure, Except.pure] at hc
              rw [← hc]
          · simp [Customer.init, Person.init, Person.set_email, Person.set_phone, hne,
              hme, hpe, Bind.bind, Except.bind, Pure.pure, Except.pure] at hc
            rw [← hc]
    · intro ph hp hpne
      subst hp
      rcases hmp : PHONE_RE_match cls ph with _ | _
      · exfalso
        rcases email with _ | e
        · simp [Customer.init, Person.init, Person.set_phone, hpne, hmp, Bind.bind,
            Except.bind, Pure.pure, Except.pure] at hc
        · rcases hee : e.isEmpty with _ | _
          · rcases hme : EMAIL_RE_match cls e with _ | _
            · simp [Customer.init, Person.init, Person.set_email, Person.set_phone, hpne,
                hmp, hee, hme, Bind.bind, Except.bind, Pure.pure, Except.pure] at hc
            · simp [Customer.init, Person.init, Person.set_email, Person.set_phone, hpne,
                hmp, hee, hme, Bind.bind, Except.bind, Pure.pure, Except.pure] at hc
          · simp [Customer.init, Person.init, Person.set_email, Person.set_phone, hpne,
              hmp, hee, Bind.bind, Except.bind, Pure.pure, Except.pure] at hc
      · refine ⟨rfl, ?_⟩
        rcases email with _ | e
        · simp [Customer.init, Person.init, Person.set_phone, hpne, hmp, Bind.bind,
            Except.bind, Pure.pure, Except.pure] at hc
          rw [← hc]
        · rcases hee : e.isEmpty with _ | _
          · rcases hme : EMAIL_RE_match cls e with _ | _
            · exfalso
              simp [Customer.init, Person.init, Person.set_email, Person.set_phone, hpne,
                hmp, hee, hme, Bind.bind, Except.bind, Pure.pure, Except.pure] at hc
            · simp [Customer.init, Person.init, Person.set_email, Person.set_phone, hpne,
                hmp, hee, hme, Bind.bind, Except.bind, Pure.pure, Except.pure] at hc
              rw [← hc]
          · simp [Customer.init, Person.init, Person.set_email, Person.set_phone, hpne,
              hmp, hee, Bind.bind, Except.bind, Pure.pure, Except.pure] at hc
            rw [← hc]

/-- Witness for the amended C6: a non-empty invalid email aborts
construction, and a non-empty invalid phone never yields a customer;
evaluated at the ASCII fragment, which coincides with the full tables on
these ASCII strings. -/
theorem customer_init_validates_witness :
    Customer.init asciiClasses 0 "Ivan" (some "bad") none none none
        = Except.error "Invalid email: bad" ∧
    Customer.init asciiClasses 0 "Ivan" none (some "abc") none none
        ≠ Except.ok ⟨⟨"Ivan", none, none⟩, none, _generate_id 0, []⟩ :=
  ⟨(customer_init_validates asciiClasses 0 "Ivan" (some "bad") none none none).1 "bad" rfl
      (by decide) (by decide),
    (customer_init_validates asciiClasses 0 "Ivan" none (some "abc") none none).2.1 "abc" rfl
      (by decide) (by decide) _⟩

/-- C7: constructing a Product with a negative price fails with the
`NegativePrice` validation failure and produces no object; with a
non-negative price it succeeds and the resulting sku is a non-empty string,
the generated identifier when the caller supplies none. -/
theorem product_init_validates (entropy : ℕ) (name : String) (price : ℚ)
    (sku : Option String) :
    (price < 0 →
      Product.init entropy name price sku = Except.error "Price cannot be negative") ∧
    (0 ≤ price →
      Product.init entropy name price sku
        = Except.ok
            { name := name, price := price,
              sku := (match sku with
                | some s => if s.isEmpty then _generate_id entropy else s
                | none => _generate_id entropy) }) ∧
    (∀ pr, Product.init entropy name price sku = Except.ok pr → pr.sku ≠ "") ∧
    (sku = none → ∀ pr, Product.init entropy name price sku = Except.ok pr →
      pr.sku = _generate_id entropy) := by
  refine ⟨?_, ?_, ?_, ?_⟩
  · intro h
    rw [Product.init.eq_def, if_pos h]
  · intro h
    rw [Product.init.eq_def, if_neg (not_lt.mpr h)]
  · intro pr hpr
    rw [Product.init.eq_def] at hpr
    by_cases h : price < 0
    · rw [if_pos h] at hpr
      exact absurd hpr (by simp)
    · rw [if_neg h] at hpr
      simp only [Except.ok.injEq] at hpr
      rw [← hpr]
      rcases sku with _ | s
      · exact _generate_id_ne_empty entropy
      · rcases hs : s.isEmpty with _ | _
        · show (if s.isEmpty = true then _generate_id entropy else s) ≠ ""
          rw [hs]
          simp only [Bool.false_eq_true, if_false]
          intro hcon
          rw [hcon] at hs
          exact absurd hs (by decide)
        · show (if s.isEmpty = true then _generate_id entropy else s) ≠ ""
          rw [hs]
          simpa using _generate_id_ne_empty entropy
  · intro hsku pr hpr
    subst hsku
    rw [Product.init.eq_def] at hpr
    by_cases h : price < 0
    · rw [if_pos h] at hpr
      exact absurd hpr (by simp)
    · rw [if_neg h] at hpr
      simp only [Except.ok.injEq] at hpr
      rw [← hpr]

/-- Witness for C7: a negative and a non-negative concrete price. -/
theorem product_init_validates_witness :
    Product.init 0 "X" (-1) none = Except.error "Price cannot be negative" ∧
    ∀ pr, Product.init 0 "X" 10 none = Except.ok pr → pr.sku = _generate_id 0 :=
  ⟨(product_init_validates 0 "X" (-1) none).1 (by norm_num),
    (product_init_validates 0 "X" 10 none).2.2.2 rfl⟩

/-- C8: constructing an OrderItem with a non-positive quantity fails with
the `NonPositiveQuantity` validation failure; with a positive quantity it
succeeds, and `cost` is recomputed from the product's current price on
every call — it is a function of the item's current product field, with no
value cached at construction. -/
theorem orderitem_init_and_cost (product : Product) (quantity : ℤ) :
    (quantity ≤ 0 →
      OrderItem.init product quantity = Except.error "Quantity must be > 0") ∧
    (0 < quantity →
      OrderItem.init product quantity
        = Except.ok { product := product, quantity := quantity }) ∧
    (∀ i : OrderItem, i.cost = i.product.price * (i.quantity : ℚ)) ∧
    (∀ i : OrderItem, ∀ p2 : Product,
      OrderItem.cost { i with product := p2 } = p2.price * (i.quantity : ℚ)) := by
  refine ⟨?_, ?_, fun i => rfl, fun i p2 => rfl⟩
  · intro h
    rw [OrderItem.init.eq_def, if_pos h]
  · intro h
    rw [OrderItem.init.eq_def, if_neg (not_le.mpr h)]

/-- Witness for C8: quantity 0 is rejected, quantity 2 is accepted, and the
cost of two 10-priced units is 20. -/
theorem orderitem_init_and_cost_witness :
    OrderItem.init ⟨"Widget", 10, "s1"⟩ 0 = Except.error "Quantity must be > 0" ∧
    OrderItem.init ⟨"Widget", 10, "s1"⟩ 2 = Except.ok ⟨⟨"Widget", 10, "s1"⟩, 2⟩ ∧
    OrderItem.cost ⟨⟨"Widget", 10, "s1"⟩, 2⟩
      = Product.price ⟨"Widget", 10, "s1"⟩ * ((2 : ℤ) : ℚ) :=
  ⟨(orderitem_init_and_cost ⟨"Widget", 10, "s1"⟩ 0).1 (by norm_num),
    (orderitem_init_and_cost ⟨"Widget", 10, "s1"⟩ 2).2.1 (by norm_num),
    (orderitem_init_and_cost ⟨"Widget", 10, "s1"⟩ 2).2.2.1 ⟨⟨"Widget", 10, "s1"⟩, 2⟩⟩
